import Mathlib

/-!
# Verification of `sam_gov_scrapper.py`

Shallow embedding of the SAM.gov opportunity scraper:

* JSON-decoded values are modelled by `JsonVal`.  JSON numbers are modelled
  as integers (`Int`); floating-point literals are outside the scope of the
  embedding.  An `Opportunity` is the decoded form of one JSON object: an
  association list from string keys to values (Python dicts have unique
  keys; lookup takes the first binding).
* `pyStr` / `pyRepr` model Python's `str()` / `repr()` on decoded JSON
  values, as used by `filter_opportunities` (`str(opp.get(...))`) and by
  the printed summaries.  For strings inside containers, `pyReprStr`
  models Python's quote choice; escaping of further special characters
  inside such nested literals is not modelled (no property below depends
  on it).
* `search_opportunities` is modelled as a function of the transport
  outcome supplied by the environment (`HttpResponse`): a raised
  `requests` exception, or a status code together with the JSON-decoded
  body (`none` standing for a body that fails to decode).  Responses whose
  decoded body is not a JSON object are outside the modelled domain (the
  API contract fixes a top-level object).
* `save_opportunities` is modelled against an explicit filesystem state
  (list of name/content pairs) and an explicit write outcome; the
  timestamp string is a parameter (wall-clock time is abstracted).
  `dumps` reproduces `json.dump(..., indent=2, ensure_ascii=False)` and
  `json_loads` is an executable JSON reader used to state the save/load
  round trip.
-/

inductive JsonVal where
  | null
  | jbool (b : Bool)
  | jnum (n : Int)
  | jstr (s : String)
  | jarr (elems : List JsonVal)
  | jobj (fields : List (String × JsonVal))

abbrev Opportunity := List (String × JsonVal)

/-- Decimal digits of `n`, most significant first (`fuel` bounds the
recursion; `fuel` ≥ the number of digits suffices). -/
def natStrAux : Nat → Nat → List Char
  | 0, _ => []
  | fuel + 1, n => if n = 0 then [] else natStrAux fuel (n / 10) ++ [Nat.digitChar (n % 10)]

/-- Python `str` of a natural number. -/
def natStr (n : Nat) : String :=
  if n = 0 then "0" else String.mk (natStrAux n n)

/-- Python `str` of an integer. -/
def intStr (n : Int) : String :=
  if n < 0 then "-" ++ natStr n.natAbs else natStr n.natAbs

/-- Python `repr` of a string: quote choice as in CPython (single quotes
unless the text holds a single quote and no double quote). -/
def pyReprStr (s : String) : String :=
  if s.data.contains '\'' && !(s.data.contains '"')
  then "\"" ++ s ++ "\"" else "'" ++ s ++ "'"

mutual

def pyRepr : JsonVal → String
  | .null => "None"
  | .jbool true => "True"
  | .jbool false => "False"
  | .jnum n => intStr n
  | .jstr s => pyReprStr s
  | .jarr es => "[" ++ String.intercalate ", " (pyReprList es) ++ "]"
  | .jobj fs => "\x7b" ++ String.intercalate ", " (pyReprFields fs) ++ "\x7d"

def pyReprList : List JsonVal → List String
  | [] => []
  | v :: vs => pyRepr v :: pyReprList vs

def pyReprFields : List (String × JsonVal) → List String
  | [] => []
  | f :: fs => (pyReprStr f.1 ++ ": " ++ pyRepr f.2) :: pyReprFields fs

end

/-- Python `str` of a decoded JSON value. -/
def pyStr : JsonVal → String
  | .jstr s => s
  | v => pyRepr v

/-- `opp.get(key)`: first binding for `key`, if any. -/
def oget (opp : Opportunity) (key : String) : Option JsonVal :=
  (opp.find? (fun p => p.1 == key)).map Prod.snd

/-- `str(opp.get(key, ""))`: the empty string when the key is absent,
otherwise Python `str` of the stored value. -/
def getStr (opp : Opportunity) (key : String) : String :=
  match oget opp key with
  | none => ""
  | some v => pyStr v

/-- Python `str.lower()`, character by character (ASCII case folding, as in
`Char.toLower`). -/
def strLower (s : String) : String := String.mk (s.data.map Char.toLower)

/-- Line 128-133: the lowercased, space-joined searchable text of one
opportunity. -/
def searchableText (opp : Opportunity) : String :=
  strLower (String.intercalate " "
    [getStr opp "title", getStr opp "description",
     getStr opp "type", getStr opp "classificationCode"])

/-- `needle` starts `haystack` (Python `haystack.startswith(needle)`). -/
def startsWithList : List Char → List Char → Bool
  | _, [] => true
  | [], _ :: _ => false
  | c :: cs, d :: ds => c == d && startsWithList cs ds

/-- Python's `needle in haystack` on character lists. -/
def strSub (needle : List Char) : List Char → Bool
  | [] => needle.isEmpty
  | c :: t => startsWithList (c :: t) needle || strSub needle t

/-- Line 136: `keyword.lower() in searchable_text`. -/
def keywordOk (opp : Opportunity) (keyword : String) : Bool :=
  strSub (strLower keyword).data (searchableText opp).data

/-- Lines 109-140: keep the opportunities all of whose must-include
keywords occur in the searchable text. -/
def filter_opportunities (opportunities : List Opportunity)
    (must_include_keywords : List String) : List Opportunity :=
  opportunities.filter (fun opp => must_include_keywords.all (keywordOk opp))

/-- Line 47: `" OR ".join([f'"{k}"' for k in keywords])`. -/
def keyword_query (keywords : List String) : String :=
  String.intercalate " OR " (keywords.map (fun k => "\"" ++ k ++ "\""))

/-- Lines 49-55: the query parameters of the search request. -/
structure SearchParams where
  api_key : String
  limit : Nat
  postedFrom : String
  postedTo : String
  keywords : String
deriving DecidableEq

def build_params (api_key : String) (limit : Nat) (postedFrom postedTo : String)
    (keywords : List String) : SearchParams :=
  { api_key := api_key, limit := limit, postedFrom := postedFrom,
    postedTo := postedTo, keywords := keyword_query keywords }

/-- Outcome of the HTTP exchange, supplied by the environment: `failure`
is a raised `requests.exceptions.RequestException` (connection error,
timeout); otherwise a status code and the JSON-decoded body, with `none`
for a body that is not valid JSON (`response.json()` raises a
`RequestException` subclass). -/
inductive HttpResponse where
  | failure (msg : String)
  | response (status : Nat) (body : Option (List (String × JsonVal)))

/-- Lines 57-83: the result of `search_opportunities` as a function of the
transport outcome.  A raised transport exception and an HTTP error status
(`raise_for_status` raises for 4xx/5xx) are caught and yield `[]`; a
malformed body yields `[]`; a body without the `opportunitiesData` key
yields `[]`; otherwise the value stored under the key is returned as is. -/
def search_opportunities (resp : HttpResponse) : JsonVal :=
  match resp with
  | .failure _ => .jarr []
  | .response status body =>
    if 400 ≤ status ∧ status < 600 then .jarr []
    else
      match body with
      | none => .jarr []
      | some fields =>
        match (fields.find? (fun p => p.1 == "opportunitiesData")).map Prod.snd with
        | none => .jarr []
        | some v => v

/-- `n` spaces. -/
def spaces (n : Nat) : String := String.mk (List.replicate n ' ')

/-- Four lowercase hex digits of `n < 0x10000`. -/
def hex4 (n : Nat) : String :=
  String.mk [Nat.digitChar (n / 4096 % 16), Nat.digitChar (n / 256 % 16),
             Nat.digitChar (n / 16 % 16), Nat.digitChar (n % 16)]

/-- The characters `json.dump(..., ensure_ascii=False)` writes for one
character of a string: the two-character shortcuts for `"`, `\`, and the
common control characters, `\uXXXX` for the remaining control characters,
and the character itself (unescaped, non-ASCII included) otherwise. -/
def escChar (c : Char) : String :=
  if c = '"' then "\\\""
  else if c = '\\' then "\\\\"
  else if c = '\n' then "\\n"
  else if c = '\r' then "\\r"
  else if c = '\t' then "\\t"
  else if c = '\x08' then "\\b"
  else if c = '\x0c' then "\\f"
  else if c.toNat < 32 then "\\u" ++ hex4 c.toNat
  else String.mk [c]

def escData : List Char → List Char
  | [] => []
  | c :: cs => (escChar c).data ++ escData cs

/-- A JSON string literal. -/
def encStr (s : String) : String := "\"" ++ String.mk (escData s.data) ++ "\""

mutual

/-- `json.dump(v, indent=2)` at indentation level `ind`: scalars inline;
non-empty arrays and objects spread one element per line, elements
indented by `ind + 2`, item separator `,`, key separator `: `. -/
def dumpVal (ind : Nat) (v : JsonVal) : String :=
  match v with
  | .null => "null"
  | .jbool true => "true"
  | .jbool false => "false"
  | .jnum n => intStr n
  | .jstr s => encStr s
  | .jarr [] => "[]"
  | .jarr (e :: es) => "[\n" ++ dumpItems (ind + 2) e es ++ "\n" ++ spaces ind ++ "]"
  | .jobj [] => "\x7b\x7d"
  | .jobj (⟨k, w⟩ :: fs) => "\x7b\n" ++ dumpPairs (ind + 2) k w fs ++ "\n" ++ spaces ind ++ "\x7d"
termination_by sizeOf v

def dumpItems (ind : Nat) (e : JsonVal) (es : List JsonVal) : String :=
  spaces ind ++ dumpVal ind e ++
    match es with
    | [] => ""
    | e2 :: es2 => ",\n" ++ dumpItems ind e2 es2
termination_by sizeOf e + sizeOf es + 1

def dumpPairs (ind : Nat) (k : String) (w : JsonVal) (fs : List (String × JsonVal)) : String :=
  spaces ind ++ encStr k ++ ": " ++ dumpVal ind w ++
    match fs with
    | [] => ""
    | ⟨k2, w2⟩ :: fs2 => ",\n" ++ dumpPairs ind k2 w2 fs2
termination_by sizeOf w + sizeOf fs + 1

end

/-- Line 105: the file contents `json.dump(opportunities, f, indent=2,
ensure_ascii=False)` writes for a list of opportunity records. -/
def dumps (opportunities : List Opportunity) : String :=
  dumpVal 0 (.jarr (opportunities.map .jobj))

/-- Outcome of the `open`/`write` on the filesystem, supplied by the
environment. -/
inductive WriteOutcome where
  | ok
  | ioError (msg : String)

def save_filename (filename timestamp : String) : String :=
  filename ++ "_" ++ timestamp ++ ".json"

/-- Lines 85-107: `save_opportunities` against an explicit filesystem
state (pairs of file name and contents) and write outcome.  The timestamp
string (`datetime.now().strftime("%Y%m%d_%H%M%S")`) is a parameter of the
model.  There is no handler around the write: an I/O error escapes as
`Except.error`. -/
def save_opportunities (w : WriteOutcome) (fs : List (String × String))
    (opportunities : List Opportunity) (filename timestamp : String) :
    Except String (List (String × String)) :=
  match w with
  | .ok => .ok (fs ++ [(save_filename filename timestamp, dumps opportunities)])
  | .ioError msg => .error msg

/-- Python `print(f"Title: {opp.get('title')}")` renders an absent key as
`None`. -/
def pyStrOpt : Option JsonVal → String
  | none => "None"
  | some v => pyStr v

/-- Lines 149-154: the per-opportunity block of `print_summary`. -/
def summary_lines (opp : Opportunity) : List String :=
  [String.mk (List.replicate 80 '-'),
   "Title: " ++ pyStrOpt (oget opp "title"),
   "Notice ID: " ++ pyStrOpt (oget opp "noticeId"),
   "Posted Date: " ++ pyStrOpt (oget opp "postedDate"),
   "Response Due Date: " ++ pyStrOpt (oget opp "responseDueDate")]

/-- Lines 142-154: every line `print_summary` prints. -/
def print_summary (opportunities : List Opportunity) (title : String) : List String :=
  (title ++ " Summary:") :: ("Total count: " ++ natStr opportunities.length) ::
    (opportunities.map summary_lines).flatten

/-- JSON whitespace. -/
def isWs (c : Char) : Bool := c = ' ' || c = '\t' || c = '\n' || c = '\r'

def skipWs : List Char → List Char
  | [] => []
  | c :: cs => if isWs c then skipWs cs else c :: cs

/-- Longest digit run at the front, and the remainder. -/
def takeDigits : List Char → List Char × List Char
  | [] => ([], [])
  | c :: cs =>
    if c.isDigit then
      let p := takeDigits cs
      (c :: p.1, p.2)
    else ([], c :: cs)

/-- True when the input does not continue with another digit (the greedy
number parse stops here). -/
def headNotDigit : List Char → Bool
  | [] => true
  | c :: _ => !c.isDigit

/-- Value of a decimal digit run, most significant first. -/
def digitsToNat (ds : List Char) : Nat :=
  List.foldl (fun a c => 10 * a + (c.toNat - 48)) 0 ds

def hexDigitVal (c : Char) : Option Nat :=
  if '0' ≤ c ∧ c ≤ '9' then some (c.toNat - 48)
  else if 'a' ≤ c ∧ c ≤ 'f' then some (c.toNat - 87)
  else if 'A' ≤ c ∧ c ≤ 'F' then some (c.toNat - 55)
  else none

def hex4val (h1 h2 h3 h4 : Char) : Option Nat := do
  let a ← hexDigitVal h1
  let b ← hexDigitVal h2
  let c ← hexDigitVal h3
  let d ← hexDigitVal h4
  pure (4096 * a + 256 * b + 16 * c + d)

/-- The character denoted by a one-character JSON escape. -/
def unescChar (e : Char) : Option Char :=
  if e = '"' then some '"'
  else if e = '\\' then some '\\'
  else if e = '/' then some '/'
  else if e = 'b' then some '\x08'
  else if e = 'f' then some '\x0c'
  else if e = 'n' then some '\n'
  else if e = 'r' then some '\r'
  else if e = 't' then some '\t'
  else none

/-- Body of a JSON string literal after the opening quote: the decoded
characters and the input after the closing quote. -/
def parseStrChars : List Char → Option (List Char × List Char)
  | [] => none
  | '"' :: cs => some ([], cs)
  | '\\' :: 'u' :: h1 :: h2 :: h3 :: h4 :: cs3 =>
    match hex4val h1 h2 h3 h4 with
    | none => none
    | some n =>
      match parseStrChars cs3 with
      | none => none
      | some (tcs, r) => some (Char.ofNat n :: tcs, r)
  | '\\' :: e :: cs2 =>
    match unescChar e with
    | none => none
    | some c2 =>
      match parseStrChars cs2 with
      | none => none
      | some (tcs, r) => some (c2 :: tcs, r)
  | '\\' :: [] => none
  | c :: cs =>
    match parseStrChars cs with
    | none => none
    | some (tcs, r) => some (c :: tcs, r)

mutual

/-- One JSON value (integers only among numbers), by recursive descent;
`fuel` bounds the recursion depth. -/
def parseVal : Nat → List Char → Option (JsonVal × List Char)
  | 0, _ => none
  | fuel + 1, cs =>
    match skipWs cs with
    | [] => none
    | c :: r =>
      if c.isDigit then
        let p := takeDigits (c :: r)
        some (.jnum (digitsToNat p.1 : Int), p.2)
      else
        match c, r with
        | 'n', 'u' :: 'l' :: 'l' :: r2 => some (.null, r2)
        | 't', 'r' :: 'u' :: 'e' :: r2 => some (.jbool true, r2)
        | 'f', 'a' :: 'l' :: 's' :: 'e' :: r2 => some (.jbool false, r2)
        | '"', r2 =>
          match parseStrChars r2 with
          | some (scs, r3) => some (.jstr (String.mk scs), r3)
          | none => none
        | '[', r2 =>
          match parseItems fuel r2 with
          | some (vs, r3) => some (.jarr vs, r3)
          | none => none
        | '\x7b', r2 =>
          match parseFields fuel r2 with
          | some (fs, r3) => some (.jobj fs, r3)
          | none => none
        | '-', r2 =>
          let p := takeDigits r2
          if p.1 = [] then none else some (.jnum (-(digitsToNat p.1 : Int)), p.2)
        | _, _ => none

/-- The items of a JSON array after the opening bracket, closing bracket
included. -/
def parseItems : Nat → List Char → Option (List JsonVal × List Char)
  | 0, _ => none
  | fuel + 1, cs =>
    let cs1 := skipWs cs
    if cs1.head? = some ']' then some ([], cs1.tail)
    else
      match parseVal fuel cs1 with
      | none => none
      | some (v, r) =>
        let r1 := skipWs r
        if r1.head? = some ',' then
          match parseItems fuel r1.tail with
          | some (vs, r3) => some (v :: vs, r3)
          | none => none
        else if r1.head? = some ']' then some ([v], r1.tail)
        else none

/-- The fields of a JSON object after the opening brace, closing brace
included. -/
def parseFields : Nat → List Char → Option (List (String × JsonVal) × List Char)
  | 0, _ => none
  | fuel + 1, cs =>
    let cs1 := skipWs cs
    if cs1.head? = some '\x7d' then some ([], cs1.tail)
    else
      match cs1 with
      | '"' :: r0 =>
        match parseStrChars r0 with
        | none => none
        | some (kcs, r1) =>
          let r2 := skipWs r1
          if r2.head? = some ':' then
            match parseVal fuel r2.tail with
            | none => none
            | some (v, r3) =>
              let r4 := skipWs r3
              if r4.head? = some ',' then
                match parseFields fuel r4.tail with
                | some (fs, r5) => some ((String.mk kcs, v) :: fs, r5)
                | none => none
              else if r4.head? = some '\x7d' then some ([(String.mk kcs, v)], r4.tail)
              else none
          else none
      | _ => none

end

/-- `json.load` on a whole string (with the integer-only restriction of
`parseVal`): one value, then only whitespace. -/
def json_loads (s : String) : Option JsonVal :=
  match parseVal (s.data.length + 1) s.data with
  | some (v, r) => if skipWs r = [] then some v else none
  | none => none

mutual

/-- Fuel sufficient for `parseVal` to parse the dump of a value. -/
def fuelFor : JsonVal → Nat
  | .null => 1
  | .jbool _ => 1
  | .jnum _ => 1
  | .jstr _ => 1
  | .jarr [] => 2
  | .jobj [] => 2
  | .jarr (e :: es) => 1 + fuelItems e es
  | .jobj (⟨_, w⟩ :: fs) => 1 + fuelPairs w fs
termination_by v => sizeOf v

def fuelItems (e : JsonVal) (es : List JsonVal) : Nat :=
  match es with
  | [] => 1 + fuelFor e
  | e2 :: es2 => 1 + fuelFor e + fuelItems e2 es2
termination_by sizeOf e + sizeOf es + 1

def fuelPairs (w : JsonVal) (fs : List (String × JsonVal)) : Nat :=
  match fs with
  | [] => 1 + fuelFor w
  | ⟨_, w2⟩ :: fs2 => 1 + fuelFor w + fuelPairs w2 fs2
termination_by sizeOf w + sizeOf fs + 1

end

/-- Decode one opportunity record back from JSON. -/
def decodeOpp : JsonVal → Option Opportunity
  | .jobj fs => some fs
  | _ => none

/-- Decode a saved file back to the list of opportunity records. -/
def decodeOpps : JsonVal → Option (List Opportunity)
  | .jarr vs => vs.mapM decodeOpp
  | _ => none

/-! ## Basic lemmas -/

theorem startsWithList_iff (l n : List Char) : startsWithList l n = true ↔ n <+: l := by
  induction n generalizing l with
  | nil => simp [startsWithList]
  | cons d ds ih =>
    cases l with
    | nil => simp [startsWithList]
    | cons c cs =>
      rw [show startsWithList (c :: cs) (d :: ds) = (c == d && startsWithList cs ds) from rfl,
        List.cons_prefix_cons, Bool.and_eq_true, beq_iff_eq, ih]
      exact and_congr_left (fun _ => eq_comm)

theorem intercalate_go_append (s c : String) : ∀ (l : List String) (a : String),
    String.intercalate.go (c ++ a) s l = c ++ String.intercalate.go a s l := by
  intro l
  induction l with
  | nil => intro a; rfl
  | cons d ds ih =>
    intro a
    show String.intercalate.go (c ++ a ++ s ++ d) s ds = _
    rw [String.append_assoc, String.append_assoc, ih, ← String.append_assoc]
    rfl

/-- `strSub` decides Python's substring test: it agrees with `List.IsInfix`. -/
theorem strSub_iff (n h : List Char) : strSub n h = true ↔ n <:+: h := by
  induction h with
  | nil => simp [strSub, List.isEmpty_iff]
  | cons c t ih =>
    simp [strSub, ih, startsWithList_iff, List.infix_cons_iff, Bool.or_eq_true]

/-! ## The filtering claims -/

/-- C1: an opportunity is kept by `filter_opportunities` iff every
must-include keyword, lowercased, occurs as a substring of its lowercased
space-joined searchable text; in particular a title "AWS Cloud Project"
survives the keyword list `["aws"]`. -/
theorem C1_filter_keeps_iff_all_keywords_occur :
    (∀ (O : List Opportunity) (M : List String) (opp : Opportunity),
      opp ∈ filter_opportunities O M ↔
        opp ∈ O ∧ ∀ kw ∈ M, (strLower kw).data <:+: (searchableText opp).data) ∧
    filter_opportunities [[("title", JsonVal.jstr "AWS Cloud Project")]] ["aws"]
      = [[("title", JsonVal.jstr "AWS Cloud Project")]] := by
  constructor
  · intro O M opp
    simp [filter_opportunities, List.mem_filter, List.all_eq_true, keywordOk, strSub_iff]
  · rfl

/-- C2: the filtered list is a sublist of the input (same relative order,
no duplication or reordering), and an empty keyword list keeps the input
unchanged. -/
theorem C2_filter_sublist_and_empty_keywords :
    (∀ (O : List Opportunity) (M : List String), (filter_opportunities O M).Sublist O) ∧
    (∀ O : List Opportunity, filter_opportunities O [] = O) := by
  refine ⟨fun O M => List.filter_sublist O, fun O => ?_⟩
  simp [filter_opportunities]

/-- C9: filtering twice with the same keywords equals filtering once. -/
theorem C9_filter_idempotent (O : List Opportunity) (M : List String) :
    filter_opportunities (filter_opportunities O M) M = filter_opportunities O M := by
  simp [filter_opportunities, List.filter_filter]

/-- C10: appending keywords only removes opportunities: the result of the
longer keyword list is a sublist of the result of the shorter one. -/
theorem C10_filter_antitone (O : List Opportunity) (M1 M2 : List String) :
    (filter_opportunities O (M1 ++ M2)).Sublist (filter_opportunities O M1) := by
  apply List.monotone_filter_right
  intro opp h
  simp only [List.all_append, Bool.and_eq_true] at h
  exact h.1

/-- C3, counterexample: a field that is present with a null value is NOT
treated as the empty string.  `str(None)` is `"None"`, so a null title
contributes `none` to the lowercased search string, and an opportunity
whose only datum is a null title is retained by the keyword `"none"`,
while the empty-string title version is dropped. -/
theorem C3_null_is_None_counterexample :
    searchableText [("title", JsonVal.null)] = "none   " ∧
    searchableText [("title", JsonVal.jstr "")] = "   " ∧
    filter_opportunities [[("title", JsonVal.null)]] ["none"]
      = [[("title", JsonVal.null)]] ∧
    filter_opportunities [[("title", JsonVal.jstr "")]] ["none"] = [] :=
  ⟨rfl, rfl, rfl, rfl⟩

/-- C3, amended: a missing field is substituted by the empty string and a
present-but-null field by the string `"None"` when the search string is
built; neither filtering nor the summary raises (the summary of any list
of opportunities is a total function producing `2 + 5·n` lines, rendering
missing fields as `None`). -/
theorem C3_missing_empty_null_None (opp : Opportunity) (key : String) :
    (oget opp key = none → getStr opp key = "") ∧
    (oget opp key = some JsonVal.null → getStr opp key = "None") ∧
    (oget opp key = none → pyStrOpt (oget opp key) = "None") ∧
    (∀ title, (print_summary [opp] title).length = 7) := by
  refine ⟨fun h => ?_, fun h => ?_, fun h => ?_, fun title => ?_⟩
  · simp [getStr, h]
  · simp [getStr, h, pyStr, pyRepr]
  · simp [pyStrOpt, h]
  · simp [print_summary, summary_lines]

theorem C3_missing_empty_null_None_witness :
    getStr [] "title" = "" ∧
    getStr [("title", JsonVal.null)] "title" = "None" ∧
    pyStrOpt (oget [] "title") = "None" ∧
    (print_summary [[("title", JsonVal.null)]] "All Opportunities").length = 7 :=
  ⟨(C3_missing_empty_null_None [] "title").1 rfl,
   (C3_missing_empty_null_None [("title", JsonVal.null)] "title").2.1 rfl,
   (C3_missing_empty_null_None [] "title").2.2.1 rfl,
   (C3_missing_empty_null_None [("title", JsonVal.null)] "title").2.2.2 "All Opportunities"⟩

/-! ## The search claims -/

/-- C4: every transport-level failure is converted to the empty result
inside `search_opportunities`: a raised request exception, an HTTP error
status (4xx/5xx, surfaced by `raise_for_status`), and a body that fails
to decode all yield `[]`, and no exception escapes (the model is a total
function). -/
theorem C4_transport_failures_yield_empty :
    (∀ msg, search_opportunities (.failure msg) = .jarr []) ∧
    (∀ status body, 400 ≤ status → status < 600 →
      search_opportunities (.response status body) = .jarr []) ∧
    (∀ status, search_opportunities (.response status none) = .jarr []) := by
  refine ⟨fun msg => rfl, fun status body h1 h2 => ?_, fun status => ?_⟩
  · simp [search_opportunities, h1, h2]
  · by_cases h : 400 ≤ status ∧ status < 600 <;> simp [search_opportunities, h]

theorem C4_transport_failures_yield_empty_witness :
    search_opportunities (.failure "Connection refused") = .jarr [] ∧
    search_opportunities (.response 500 (some [("opportunitiesData", JsonVal.jarr [])]))
      = .jarr [] ∧
    search_opportunities (.response 200 none) = .jarr [] :=
  ⟨C4_transport_failures_yield_empty.1 "Connection refused",
   C4_transport_failures_yield_empty.2.1 500
     (some [("opportunitiesData", JsonVal.jarr [])]) (by decide) (by decide),
   C4_transport_failures_yield_empty.2.2 200⟩

/-- C5: on a 200 response, a decoded body without the `opportunitiesData`
key yields the empty result without raising, and a body with the key
yields exactly the stored value, unvalidated and unreordered. -/
theorem C5_opportunitiesData_key (fields : List (String × JsonVal)) :
    ((fields.find? (fun p => p.1 == "opportunitiesData")).map Prod.snd = none →
      search_opportunities (.response 200 (some fields)) = .jarr []) ∧
    (∀ v, (fields.find? (fun p => p.1 == "opportunitiesData")).map Prod.snd = some v →
      search_opportunities (.response 200 (some fields)) = v) := by
  refine ⟨fun h => ?_, fun v h => ?_⟩ <;> simp [search_opportunities, h]

theorem C5_opportunitiesData_key_witness :
    search_opportunities (.response 200 (some [("other", JsonVal.jarr [])])) = .jarr [] ∧
    search_opportunities
        (.response 200 (some [("opportunitiesData",
          JsonVal.jarr [JsonVal.jobj [("title", JsonVal.jstr "x")]])]))
      = JsonVal.jarr [JsonVal.jobj [("title", JsonVal.jstr "x")]] :=
  ⟨(C5_opportunitiesData_key [("other", JsonVal.jarr [])]).1 rfl,
   (C5_opportunitiesData_key [("opportunitiesData",
      JsonVal.jarr [JsonVal.jobj [("title", JsonVal.jstr "x")]])]).2
     (JsonVal.jarr [JsonVal.jobj [("title", JsonVal.jstr "x")]]) rfl⟩

/-- C6: the `keywords` query parameter wraps each keyword in double quotes
and joins with `" OR "`; the empty list gives the empty string. -/
theorem C6_keyword_query_shape :
    keyword_query [] = "" ∧
    (∀ k, keyword_query [k] = "\"" ++ k ++ "\"") ∧
    (∀ k k2 K, keyword_query (k :: k2 :: K)
      = "\"" ++ k ++ "\"" ++ " OR " ++ keyword_query (k2 :: K)) ∧
    keyword_query ["a", "b"] = "\"a\" OR \"b\"" ∧
    (∀ a l f t K, (build_params a l f t K).keywords = keyword_query K) := by
  refine ⟨rfl, fun k => rfl, fun k k2 K => ?_, rfl, fun a l f t K => rfl⟩
  show String.intercalate.go ("\"" ++ k ++ "\"" ++ " OR " ++ ("\"" ++ k2 ++ "\"")) " OR "
      (K.map (fun k => "\"" ++ k ++ "\"")) = _
  rw [intercalate_go_append]
  rfl

/-- C8: a filesystem error during save is not caught: it escapes
`save_opportunities` as an error, in contrast with the search path, which
converts its failures into an empty result. -/
theorem C8_save_errors_propagate :
    (∀ msg fs O fn ts, save_opportunities (.ioError msg) fs O fn ts = .error msg) ∧
    (∀ msg, search_opportunities (.failure msg) = .jarr []) :=
  ⟨fun _ _ _ _ _ => rfl, fun _ => rfl⟩

/-! ## The JSON dump/load round trip (for the save claim) -/

theorem skipWs_cons_of_ws {c : Char} (l : List Char) (h : isWs c = true) :
    skipWs (c :: l) = skipWs l := by simp [skipWs, h]

theorem skipWs_cons_of_not_ws {c : Char} (l : List Char) (h : isWs c = false) :
    skipWs (c :: l) = c :: l := by simp [skipWs, h]

theorem skipWs_spaces (n : Nat) (l : List Char) :
    skipWs ((spaces n).data ++ l) = skipWs l := by
  induction n with
  | zero => rfl
  | succ m ih =>
    show skipWs ((List.replicate (m + 1) ' ') ++ l) = skipWs l
    rw [List.replicate_succ, List.cons_append, skipWs_cons_of_ws _ (by decide)]
    exact ih

theorem parseVal_cons_ws {c : Char} (fuel : Nat) (l : List Char) (h : isWs c = true) :
    parseVal fuel (c :: l) = parseVal fuel l := by
  cases fuel with
  | zero => rfl
  | succ m => simp only [parseVal, skipWs_cons_of_ws _ h]

theorem parseItems_cons_ws {c : Char} (fuel : Nat) (l : List Char) (h : isWs c = true) :
    parseItems fuel (c :: l) = parseItems fuel l := by
  cases fuel with
  | zero => rfl
  | succ m => simp only [parseItems, skipWs_cons_of_ws _ h]

theorem parseFields_cons_ws {c : Char} (fuel : Nat) (l : List Char) (h : isWs c = true) :
    parseFields fuel (c :: l) = parseFields fuel l := by
  cases fuel with
  | zero => rfl
  | succ m => simp only [parseFields, skipWs_cons_of_ws _ h]

theorem digit_facts {c : Char} (h : c.isDigit = true) :
    isWs c = false ∧ c ≠ ']' ∧ c ≠ '\x7d' ∧ c ≠ ',' := by
  have h1 : c ≠ ' ' := by rintro rfl; exact absurd h (by decide)
  have h2 : c ≠ '\t' := by rintro rfl; exact absurd h (by decide)
  have h3 : c ≠ '\n' := by rintro rfl; exact absurd h (by decide)
  have h4 : c ≠ '\r' := by rintro rfl; exact absurd h (by decide)
  have h5 : c ≠ ']' := by rintro rfl; exact absurd h (by decide)
  have h6 : c ≠ '\x7d' := by rintro rfl; exact absurd h (by decide)
  have h7 : c ≠ ',' := by rintro rfl; exact absurd h (by decide)
  refine ⟨?_, h5, h6, h7⟩
  simp [isWs, h1, h2, h3, h4]

theorem headNotDigit_of_skipWs {tail rest : List Char} {c : Char}
    (hc : c.isDigit = false) (h : skipWs tail = c :: rest) :
    headNotDigit tail = true := by
  cases tail with
  | nil => rfl
  | cons a t =>
    by_cases ha : isWs a = true
    · have hd : a.isDigit = false := by
        simp only [isWs, Bool.or_eq_true, decide_eq_true_eq] at ha
        rcases ha with ((rfl | rfl) | rfl) | rfl <;> decide
      simp [headNotDigit, hd]
    · rw [skipWs_cons_of_not_ws _ (by simpa using ha)] at h
      cases h
      simp [headNotDigit, hc]

theorem hex4val_digitChar : ∀ n < 32,
    hex4val (Nat.digitChar (n / 4096 % 16)) (Nat.digitChar (n / 256 % 16))
      (Nat.digitChar (n / 16 % 16)) (Nat.digitChar (n % 16)) = some n := by decide

theorem parseStrChars_escData (cs : List Char) : ∀ rest : List Char,
    parseStrChars (escData cs ++ '"' :: rest) = some (cs, rest) := by
  induction cs with
  | nil => intro rest; simp [escData, parseStrChars]
  | cons c cs ih =>
    intro rest
    show parseStrChars ((escChar c).data ++ escData cs ++ '"' :: rest) = some (c :: cs, rest)
    by_cases h1 : c = '"'
    · subst h1; simp [escChar, parseStrChars, unescChar, ih]
    by_cases h2 : c = '\\'
    · subst h2; simp [escChar, parseStrChars, unescChar, ih]
    by_cases h3 : c = '\n'
    · subst h3; simp [escChar, parseStrChars, unescChar, ih]
    by_cases h4 : c = '\r'
    · subst h4; simp [escChar, parseStrChars, unescChar, ih]
    by_cases h5 : c = '\t'
    · subst h5; simp [escChar, parseStrChars, unescChar, ih]
    by_cases h6 : c = '\x08'
    · subst h6; simp [escChar, parseStrChars, unescChar, ih]
    by_cases h7 : c = '\x0c'
    · subst h7; simp [escChar, parseStrChars, unescChar, ih]
    by_cases h8 : c.toNat < 32
    · have hx := hex4val_digitChar c.toNat h8
      simp [escChar, h1, h2, h3, h4, h5, h6, h7, h8, hex4, parseStrChars, hx,
        Char.ofNat_toNat, ih]
    · simp [escChar, h1, h2, h3, h4, h5, h6, h7, h8, parseStrChars, ih]

theorem digitChar_isDigit : ∀ d < 10, (Nat.digitChar d).isDigit = true := by decide

theorem digitChar_val : ∀ d < 10, (Nat.digitChar d).toNat - 48 = d := by decide

theorem natStrAux_digits (fuel : Nat) : ∀ n c, c ∈ natStrAux fuel n → c.isDigit = true := by
  induction fuel with
  | zero => intro n c h; simp [natStrAux] at h
  | succ m ih =>
    intro n c h
    by_cases hn : n = 0
    · simp [natStrAux, hn] at h
    · rw [natStrAux, if_neg hn] at h
      rcases List.mem_append.mp h with h | h
      · exact ih _ _ h
      · rcases List.mem_singleton.mp h with rfl
        exact digitChar_isDigit _ (Nat.mod_lt _ (by norm_num))

theorem takeDigits_append (ds rest : List Char) (hds : ∀ c ∈ ds, c.isDigit = true)
    (hrest : headNotDigit rest = true) : takeDigits (ds ++ rest) = (ds, rest) := by
  induction ds with
  | nil =>
    cases rest with
    | nil => rfl
    | cons c t =>
      have hc : c.isDigit = false := by
        simpa [headNotDigit] using hrest
      simp [takeDigits, hc]
  | cons d ds ih =>
    have hd : d.isDigit = true := hds d (by simp)
    simp [takeDigits, hd, ih (fun c hc => hds c (by simp [hc]))]

theorem digitsToNat_natStrAux (fuel : Nat) : ∀ n, n < 10 ^ fuel →
    digitsToNat (natStrAux fuel n) = n := by
  induction fuel with
  | zero =>
    intro n h
    have : n = 0 := by simpa using Nat.lt_one_iff.mp (by simpa using h)
    subst this; rfl
  | succ m ih =>
    intro n h
    by_cases hn : n = 0
    · subst hn; simp [natStrAux, digitsToNat]
    · rw [natStrAux, if_neg hn]
      unfold digitsToNat
      rw [List.foldl_append]
      have hdiv : n / 10 < 10 ^ m := by
        rw [Nat.div_lt_iff_lt_mul (by norm_num)]
        calc n < 10 ^ (m + 1) := h
        _ = 10 ^ m * 10 := by ring
      have hrec := ih (n / 10) hdiv
      unfold digitsToNat at hrec
      rw [hrec]
      have hlt : n % 10 < 10 := Nat.mod_lt _ (by norm_num)
      have hdc := digitChar_val _ hlt
      simp only [List.foldl_cons, List.foldl_nil, hdc]
      omega

theorem natStr_data_digits (n : Nat) : ∀ c ∈ (natStr n).data, c.isDigit = true := by
  by_cases hn : n = 0
  · subst hn; intro c hc
    have : c = '0' := by simpa [natStr] using hc
    subst this; decide
  · intro c hc
    rw [natStr, if_neg hn] at hc
    exact natStrAux_digits n n c hc

theorem natStr_data_ne_nil (n : Nat) : (natStr n).data ≠ [] := by
  by_cases hn : n = 0
  · subst hn; simp [natStr]
  · rw [natStr, if_neg hn]
    cases n with
    | zero => exact absurd rfl hn
    | succ m =>
      show natStrAux (m + 1) (m + 1) ≠ []
      rw [natStrAux, if_neg (Nat.succ_ne_zero m)]
      simp

theorem digitsToNat_natStr (n : Nat) : digitsToNat (natStr n).data = n := by
  by_cases hn : n = 0
  · subst hn; decide
  · rw [natStr, if_neg hn]
    exact digitsToNat_natStrAux n n (Nat.lt_pow_self (by norm_num) n)


/-- The first character of any dumped value: never whitespace and never
one of the closing/separator characters. -/
theorem dumpVal_head (ind : Nat) (v : JsonVal) :
    ∃ c t, (dumpVal ind v).data = c :: t ∧
      isWs c = false ∧ c ≠ ']' ∧ c ≠ '\x7d' ∧ c ≠ ',' := by
  cases v with
  | null => exact ⟨'n', ['u', 'l', 'l'], by simp [dumpVal], by decide, by decide, by decide, by decide⟩
  | jbool b =>
    cases b with
    | true => exact ⟨'t', ['r', 'u', 'e'], by simp [dumpVal], by decide, by decide, by decide, by decide⟩
    | false => exact ⟨'f', ['a', 'l', 's', 'e'], by simp [dumpVal], by decide, by decide, by decide, by decide⟩
  | jnum n =>
    by_cases hneg : n < 0
    · refine ⟨'-', (natStr n.natAbs).data, ?_, by decide, by decide, by decide, by decide⟩
      simp [dumpVal, intStr, hneg, String.data_append]
    · obtain ⟨c, t, hct⟩ : ∃ c t, (natStr n.natAbs).data = c :: t := by
        cases h : (natStr n.natAbs).data with
        | nil => exact absurd h (natStr_data_ne_nil _)
        | cons c t => exact ⟨c, t, rfl⟩
      have hc : c.isDigit = true := natStr_data_digits _ c (by rw [hct]; simp)
      obtain ⟨hw, h5, h6, h7⟩ := digit_facts hc
      refine ⟨c, t, ?_, hw, h5, h6, h7⟩
      simp [dumpVal, intStr, hneg, hct]
  | jstr s =>
    refine ⟨'"', escData s.data ++ ['"'], ?_, by decide, by decide, by decide, by decide⟩
    simp [dumpVal, encStr, String.data_append]
  | jarr es =>
    cases es with
    | nil => exact ⟨'[', [']'], by simp [dumpVal], by decide, by decide, by decide, by decide⟩
    | cons e es2 =>
      refine ⟨'[', ('\n' :: (dumpItems (ind + 2) e es2).data) ++ '\n' :: (spaces ind).data ++ [']'],
        ?_, by decide, by decide, by decide, by decide⟩
      simp [dumpVal, String.data_append]
  | jobj fs =>
    cases fs with
    | nil => exact ⟨'\x7b', ['\x7d'], by simp [dumpVal], by decide, by decide, by decide, by decide⟩
    | cons f fs2 =>
      refine ⟨'\x7b',
        ('\n' :: (dumpPairs (ind + 2) f.1 f.2 fs2).data) ++ '\n' :: (spaces ind).data ++ ['\x7d'],
        ?_, by decide, by decide, by decide, by decide⟩
      obtain ⟨k, w⟩ := f
      simp [dumpVal, String.data_append]

/-- Parsing the dump of an integer consumes exactly its digits. -/
theorem parseVal_intStr (fuel : Nat) (n : Int) (rest : List Char)
    (hrest : headNotDigit rest = true) :
    parseVal (fuel + 1) ((intStr n).data ++ rest) = some (.jnum n, rest) := by
  have htake : takeDigits ((natStr n.natAbs).data ++ rest) = ((natStr n.natAbs).data, rest) :=
    takeDigits_append _ _ (natStr_data_digits _) hrest
  by_cases hneg : n < 0
  · rw [intStr, if_pos hneg, String.data_append]
    have hdm : ('-' : Char).isDigit = false := by decide
    have hne : (natStr n.natAbs).data ≠ [] := natStr_data_ne_nil _
    have habs : ((n.natAbs : Int)) = -n := by omega
    show parseVal (fuel + 1) ('-' :: ((natStr n.natAbs).data ++ rest)) = _
    have hskip : skipWs ('-' :: ((natStr n.natAbs).data ++ rest))
        = '-' :: ((natStr n.natAbs).data ++ rest) := skipWs_cons_of_not_ws _ (by decide)
    simp only [parseVal, hskip, hdm, Bool.false_eq_true, if_false, htake, hne,
      digitsToNat_natStr, habs, neg_neg]
  · rw [intStr, if_neg hneg]
    obtain ⟨c, t, hct⟩ : ∃ c t, (natStr n.natAbs).data = c :: t := by
      cases h : (natStr n.natAbs).data with
      | nil => exact absurd h (natStr_data_ne_nil _)
      | cons c t => exact ⟨c, t, rfl⟩
    have hc : c.isDigit = true := natStr_data_digits _ c (by rw [hct]; simp)
    have hw : isWs c = false := (digit_facts hc).1
    have habs : ((n.natAbs : Int)) = n := by omega
    rw [hct]
    rw [hct] at htake
    simp only [List.cons_append] at htake ⊢
    simp only [parseVal, skipWs_cons_of_not_ws _ hw, hc, if_true, htake]
    rw [show (c :: t : List Char) = (natStr n.natAbs).data from hct.symm,
      digitsToNat_natStr, habs]

theorem fuelFor_pos (v : JsonVal) : 1 ≤ fuelFor v := by
  cases v with
  | null => simp [fuelFor]
  | jbool b => simp [fuelFor]
  | jnum n => simp [fuelFor]
  | jstr s => simp [fuelFor]
  | jarr es =>
    cases es with
    | nil => simp [fuelFor]
    | cons e es2 => simp [fuelFor]
  | jobj fs =>
    cases fs with
    | nil => simp [fuelFor]
    | cons f fs2 =>
      obtain ⟨k, w⟩ := f
      simp [fuelFor]

theorem fuelItems_pos (e : JsonVal) (es : List JsonVal) : 1 ≤ fuelItems e es := by
  cases es with
  | nil => rw [fuelItems]; omega
  | cons e2 es2 => rw [fuelItems]; omega

theorem fuelPairs_pos (w : JsonVal) (fs : List (String × JsonVal)) : 1 ≤ fuelPairs w fs := by
  cases fs with
  | nil => rw [fuelPairs]; omega
  | cons f fs2 => obtain ⟨k2, w2⟩ := f; rw [fuelPairs]; omega

set_option maxHeartbeats 1000000 in
theorem parse_dump_mutual (fuel : Nat) :
    (∀ (v : JsonVal) (ind : Nat) (rest : List Char), fuelFor v ≤ fuel →
      headNotDigit rest = true →
      parseVal fuel ((dumpVal ind v).data ++ rest) = some (v, rest)) ∧
    (∀ (e : JsonVal) (es : List JsonVal) (ind : Nat) (tail rest : List Char),
      fuelItems e es ≤ fuel → skipWs tail = ']' :: rest →
      parseItems fuel ((dumpItems ind e es).data ++ tail) = some (e :: es, rest)) ∧
    (∀ (k : String) (w : JsonVal) (fs : List (String × JsonVal)) (ind : Nat)
      (tail rest : List Char),
      fuelPairs w fs ≤ fuel → skipWs tail = '\x7d' :: rest →
      parseFields fuel ((dumpPairs ind k w fs).data ++ tail) = some ((k, w) :: fs, rest)) := by
  induction fuel with
  | zero =>
    refine ⟨fun v ind rest hf _ => ?_, fun e es ind tail rest hf _ => ?_,
      fun k w fs ind tail rest hf _ => ?_⟩
    · exact absurd hf (by have := fuelFor_pos v; omega)
    · exact absurd hf (by have := fuelItems_pos e es; omega)
    · exact absurd hf (by have := fuelPairs_pos w fs; omega)
  | succ m ih =>
    obtain ⟨IHval, IHitems, IHpairs⟩ := ih
    refine ⟨?_, ?_, ?_⟩
    · -- parseVal on a dumped value
      intro v ind rest hf hrest
      cases v with
      | null =>
        rw [show dumpVal ind .null = "null" from by simp [dumpVal]]
        rfl
      | jbool b =>
        cases b with
        | true =>
          rw [show dumpVal ind (.jbool true) = "true" from by simp [dumpVal]]
          rfl
        | false =>
          rw [show dumpVal ind (.jbool false) = "false" from by simp [dumpVal]]
          rfl
      | jnum n =>
        rw [show dumpVal ind (.jnum n) = intStr n from by simp [dumpVal]]
        exact parseVal_intStr m n rest hrest
      | jstr s =>
        rw [show dumpVal ind (.jstr s) = encStr s from by simp [dumpVal]]
        have hdata : (encStr s).data ++ rest = '"' :: (escData s.data ++ '"' :: rest) := by
          simp [encStr, String.data_append]
        rw [hdata]
        have hskip : skipWs ('"' :: (escData s.data ++ '"' :: rest))
            = '"' :: (escData s.data ++ '"' :: rest) := skipWs_cons_of_not_ws _ (by decide)
        simp only [parseVal, hskip, show ('"' : Char).isDigit = false from by decide,
          Bool.false_eq_true, if_false, parseStrChars_escData]
      | jarr es =>
        cases es with
        | nil =>
          rw [show dumpVal ind (.jarr []) = "[]" from by simp [dumpVal]]
          have hm : 1 ≤ m := by
            have h2 : fuelFor (.jarr []) = 2 := by simp [fuelFor]
            omega
          obtain ⟨m2, rfl⟩ : ∃ m2, m = m2 + 1 := ⟨m - 1, by omega⟩
          rfl
        | cons e es2 =>
          rw [show dumpVal ind (.jarr (e :: es2))
              = "[
" ++ dumpItems (ind + 2) e es2 ++ "
" ++ spaces ind ++ "]"
            from by simp [dumpVal]]
          have hdata : ("[
" ++ dumpItems (ind + 2) e es2 ++ "
" ++ spaces ind ++ "]").data
                ++ rest
              = '[' :: '
' :: ((dumpItems (ind + 2) e es2).data
                  ++ ('
' :: ((spaces ind).data ++ ']' :: rest))) := by
            simp [String.data_append]
          rw [hdata]
          have hskip : skipWs ('[' :: '
' :: ((dumpItems (ind + 2) e es2).data
                ++ ('
' :: ((spaces ind).data ++ ']' :: rest))))
              = '[' :: '
' :: ((dumpItems (ind + 2) e es2).data
                ++ ('
' :: ((spaces ind).data ++ ']' :: rest))) :=
            skipWs_cons_of_not_ws _ (by decide)
          simp only [parseVal, hskip, show ('[' : Char).isDigit = false from by decide,
            Bool.false_eq_true, if_false]
          rw [parseItems_cons_ws m _ (by decide)]
          have htail : skipWs ('
' :: ((spaces ind).data ++ ']' :: rest)) = ']' :: rest := by
            rw [skipWs_cons_of_ws _ (by decide), skipWs_spaces,
              skipWs_cons_of_not_ws _ (by decide)]
          have hfe : fuelItems e es2 ≤ m := by
            have h1 : fuelFor (.jarr (e :: es2)) = 1 + fuelItems e es2 := by simp [fuelFor]
            omega
          rw [IHitems e es2 (ind + 2) _ rest hfe htail]
      | jobj fs =>
        cases fs with
        | nil =>
          rw [show dumpVal ind (.jobj []) = "\x7b\x7d" from by simp [dumpVal]]
          have hm : 1 ≤ m := by
            have h2 : fuelFor (.jobj []) = 2 := by simp [fuelFor]
            omega
          obtain ⟨m2, rfl⟩ : ∃ m2, m = m2 + 1 := ⟨m - 1, by omega⟩
          rfl
        | cons f fs2 =>
          obtain ⟨k, w⟩ := f
          rw [show dumpVal ind (.jobj ((k, w) :: fs2))
              = "\x7b\n" ++ dumpPairs (ind + 2) k w fs2 ++ "\n" ++ spaces ind ++ "\x7d"
            from by simp [dumpVal]]
          have hdata : ("\x7b\n" ++ dumpPairs (ind + 2) k w fs2 ++ "\n" ++ spaces ind
                ++ "\x7d").data ++ rest
              = '\x7b' :: '\n' :: ((dumpPairs (ind + 2) k w fs2).data
                  ++ ('\n' :: ((spaces ind).data ++ '\x7d' :: rest))) := by
            simp [String.data_append]
          rw [hdata]
          have hskip : skipWs ('\x7b' :: '\n' :: ((dumpPairs (ind + 2) k w fs2).data
                ++ ('\n' :: ((spaces ind).data ++ '\x7d' :: rest))))
              = '\x7b' :: '\n' :: ((dumpPairs (ind + 2) k w fs2).data
                ++ ('\n' :: ((spaces ind).data ++ '\x7d' :: rest))) :=
            skipWs_cons_of_not_ws _ (by decide)
          simp only [parseVal, hskip, show ('\x7b' : Char).isDigit = false from by decide,
            Bool.false_eq_true, if_false]
          rw [parseFields_cons_ws m _ (by decide)]
          have htail : skipWs ('\n' :: ((spaces ind).data ++ '\x7d' :: rest))
              = '\x7d' :: rest := by
            rw [skipWs_cons_of_ws _ (by decide), skipWs_spaces,
              skipWs_cons_of_not_ws _ (by decide)]
          have hfe : fuelPairs w fs2 ≤ m := by
            have h1 : fuelFor (.jobj ((k, w) :: fs2)) = 1 + fuelPairs w fs2 := by simp [fuelFor]
            omega
          rw [IHpairs k w fs2 (ind + 2) _ rest hfe htail]
    · -- parseItems on dumped items
      intro e es ind tail rest hf htail
      have hnd_tail : headNotDigit tail = true :=
        headNotDigit_of_skipWs (by decide) htail
      obtain ⟨c, t, hct, hw, hne1, hne2, hne3⟩ := dumpVal_head ind e
      have hskip1 : ∀ X : List Char,
          skipWs ((dumpVal ind e).data ++ X) = (dumpVal ind e).data ++ X := by
        intro X
        conv_lhs => rw [hct, List.cons_append]
        rw [skipWs_cons_of_not_ws _ hw, ← List.cons_append, ← hct]
      have hhead : ∀ X : List Char, ((dumpVal ind e).data ++ X).head? = some c := by
        intro X
        rw [hct]
        rfl
      cases es with
      | nil =>
        rw [show dumpItems ind e [] = spaces ind ++ dumpVal ind e ++ ""
          from by rw [dumpItems]]
        have hdata : (spaces ind ++ dumpVal ind e ++ "").data ++ tail
            = (spaces ind).data ++ ((dumpVal ind e).data ++ tail) := by
          simp [String.data_append]
        rw [hdata]
        have hfe : fuelFor e ≤ m := by
          rw [fuelItems] at hf
          omega
        have hif : ¬ (((dumpVal ind e).data ++ tail).head? = some ']') := by
          rw [hhead]
          simp [hne1]
        simp only [parseItems, skipWs_spaces, hskip1, if_neg hif,
          IHval e ind tail hfe hnd_tail, htail]
        rfl
      | cons e2 es3 =>
        rw [show dumpItems ind e (e2 :: es3)
            = spaces ind ++ dumpVal ind e ++ (",\n" ++ dumpItems ind e2 es3)
          from by rw [dumpItems]]
        have hdata : (spaces ind ++ dumpVal ind e ++ (",\n" ++ dumpItems ind e2 es3)).data
              ++ tail
            = (spaces ind).data ++ ((dumpVal ind e).data
                ++ (',' :: '\n' :: ((dumpItems ind e2 es3).data ++ tail))) := by
          simp [String.data_append]
        rw [hdata]
        have hfe : fuelFor e ≤ m := by
          rw [fuelItems] at hf
          omega
        have hfe2 : fuelItems e2 es3 ≤ m := by
          rw [fuelItems] at hf
          omega
        have hnd2 : headNotDigit (',' :: '\n' :: ((dumpItems ind e2 es3).data ++ tail))
            = true := rfl
        have hif : ¬ (((dumpVal ind e).data
            ++ (',' :: '\n' :: ((dumpItems ind e2 es3).data ++ tail))).head? = some ']') := by
          rw [hhead]
          simp [hne1]
        simp only [parseItems, skipWs_spaces, hskip1, if_neg hif,
          IHval e ind _ hfe hnd2]
        rw [skipWs_cons_of_not_ws _ (by decide)]
        simp only [List.head?_cons, Option.some.injEq, show (',' : Char) = ',' from rfl,
          if_pos rfl, List.tail_cons]
        rw [parseItems_cons_ws m _ (by decide), IHitems e2 es3 ind tail rest hfe2 htail]
        simp
    · -- parseFields on dumped key/value pairs
      intro k w fs ind tail rest hf htail
      have hnd_tail : headNotDigit tail = true :=
        headNotDigit_of_skipWs (by decide) htail
      cases fs with
      | nil =>
        rw [show dumpPairs ind k w [] = spaces ind ++ encStr k ++ ": " ++ dumpVal ind w ++ ""
          from by rw [dumpPairs]]
        have hdata : (spaces ind ++ encStr k ++ ": " ++ dumpVal ind w ++ "").data ++ tail
            = (spaces ind).data ++ ('"' :: (escData k.data
                ++ '"' :: ':' :: ' ' :: ((dumpVal ind w).data ++ tail))) := by
          simp [String.data_append, encStr]
        rw [hdata]
        have hfw : fuelFor w ≤ m := by
          rw [fuelPairs] at hf
          omega
        have hskipq : skipWs ('"' :: (escData k.data
              ++ '"' :: ':' :: ' ' :: ((dumpVal ind w).data ++ tail)))
            = '"' :: (escData k.data
              ++ '"' :: ':' :: ' ' :: ((dumpVal ind w).data ++ tail)) :=
          skipWs_cons_of_not_ws _ (by decide)
        have hskipc : skipWs (':' :: ' ' :: ((dumpVal ind w).data ++ tail))
            = ':' :: ' ' :: ((dumpVal ind w).data ++ tail) :=
          skipWs_cons_of_not_ws _ (by decide)
        have hpv : parseVal m (' ' :: ((dumpVal ind w).data ++ tail)) = some (w, tail) := by
          rw [show parseVal m (' ' :: ((dumpVal ind w).data ++ tail))
              = parseVal m ((dumpVal ind w).data ++ tail) from parseVal_cons_ws m _ (by decide)]
          exact IHval w ind tail hfw hnd_tail
        simp only [parseFields, skipWs_spaces, hskipq, List.head?_cons,
          show ¬ (some '"' = some '\x7d') from by decide, if_false, if_neg,
          parseStrChars_escData, hskipc, if_pos rfl, List.tail_cons, hpv, htail]
        simp
      | cons f2 fs2 =>
        obtain ⟨k2, w2⟩ := f2
        rw [show dumpPairs ind k w ((k2, w2) :: fs2)
            = spaces ind ++ encStr k ++ ": " ++ dumpVal ind w
                ++ (",\n" ++ dumpPairs ind k2 w2 fs2)
          from by rw [dumpPairs]]
        have hdata : (spaces ind ++ encStr k ++ ": " ++ dumpVal ind w
              ++ (",\n" ++ dumpPairs ind k2 w2 fs2)).data ++ tail
            = (spaces ind).data ++ ('"' :: (escData k.data
                ++ '"' :: ':' :: ' ' :: ((dumpVal ind w).data
                  ++ (',' :: '\n' :: ((dumpPairs ind k2 w2 fs2).data ++ tail))))) := by
          simp [String.data_append, encStr]
        rw [hdata]
        have hfw : fuelFor w ≤ m := by
          rw [fuelPairs] at hf
          omega
        have hfp2 : fuelPairs w2 fs2 ≤ m := by
          rw [fuelPairs] at hf
          omega
        have hnd2 : headNotDigit (',' :: '\n' :: ((dumpPairs ind k2 w2 fs2).data ++ tail))
            = true := rfl
        have hskipq : skipWs ('"' :: (escData k.data
              ++ '"' :: ':' :: ' ' :: ((dumpVal ind w).data
                ++ (',' :: '\n' :: ((dumpPairs ind k2 w2 fs2).data ++ tail)))))
            = '"' :: (escData k.data
              ++ '"' :: ':' :: ' ' :: ((dumpVal ind w).data
                ++ (',' :: '\n' :: ((dumpPairs ind k2 w2 fs2).data ++ tail)))) :=
          skipWs_cons_of_not_ws _ (by decide)
        have hskipc : skipWs (':' :: ' ' :: ((dumpVal ind w).data
              ++ (',' :: '\n' :: ((dumpPairs ind k2 w2 fs2).data ++ tail))))
            = ':' :: ' ' :: ((dumpVal ind w).data
              ++ (',' :: '\n' :: ((dumpPairs ind k2 w2 fs2).data ++ tail))) :=
          skipWs_cons_of_not_ws _ (by decide)
        have hpv : parseVal m (' ' :: ((dumpVal ind w).data
              ++ (',' :: '\n' :: ((dumpPairs ind k2 w2 fs2).data ++ tail))))
            = some (w, ',' :: '\n' :: ((dumpPairs ind k2 w2 fs2).data ++ tail)) := by
          rw [show parseVal m (' ' :: ((dumpVal ind w).data
                ++ (',' :: '\n' :: ((dumpPairs ind k2 w2 fs2).data ++ tail))))
              = parseVal m ((dumpVal ind w).data
                ++ (',' :: '\n' :: ((dumpPairs ind k2 w2 fs2).data ++ tail)))
            from parseVal_cons_ws m _ (by decide)]
          exact IHval w ind _ hfw hnd2
        have hskipm : skipWs (',' :: '\n' :: ((dumpPairs ind k2 w2 fs2).data ++ tail))
            = ',' :: '\n' :: ((dumpPairs ind k2 w2 fs2).data ++ tail) :=
          skipWs_cons_of_not_ws _ (by decide)
        have hpf : parseFields m ('\n' :: ((dumpPairs ind k2 w2 fs2).data ++ tail))
            = some ((k2, w2) :: fs2, rest) := by
          rw [show parseFields m ('\n' :: ((dumpPairs ind k2 w2 fs2).data ++ tail))
              = parseFields m ((dumpPairs ind k2 w2 fs2).data ++ tail)
            from parseFields_cons_ws m _ (by decide)]
          exact IHpairs k2 w2 fs2 ind tail rest hfp2 htail
        simp only [parseFields, skipWs_spaces, hskipq, List.head?_cons,
          show ¬ (some '"' = some '\x7d') from by decide, if_false, if_neg,
          parseStrChars_escData, hskipc, if_pos rfl, List.tail_cons, hpv, hskipm, hpf]
        simp

theorem spaces_data_length (n : Nat) : (spaces n).data.length = n := by
  simp [spaces]

theorem spaces_length (n : Nat) : (spaces n).length = n := by
  show (spaces n).data.length = n
  simp [spaces]

mutual

theorem fuelFor_le_dump (ind : Nat) (v : JsonVal) :
    fuelFor v ≤ (dumpVal ind v).data.length + 1 := by
  cases v with
  | null =>
    rw [show dumpVal ind .null = "null" from by simp [dumpVal], show fuelFor .null = 1 from by simp [fuelFor]]
    decide
  | jbool b =>
    cases b with
    | true =>
      rw [show dumpVal ind (.jbool true) = "true" from by simp [dumpVal],
        show fuelFor (.jbool true) = 1 from by simp [fuelFor]]
      decide
    | false =>
      rw [show dumpVal ind (.jbool false) = "false" from by simp [dumpVal],
        show fuelFor (.jbool false) = 1 from by simp [fuelFor]]
      decide
  | jnum n =>
    rw [show fuelFor (.jnum n) = 1 from by simp [fuelFor]]
    omega
  | jstr s =>
    rw [show fuelFor (.jstr s) = 1 from by simp [fuelFor]]
    omega
  | jarr es =>
    cases es with
    | nil =>
      rw [show dumpVal ind (.jarr []) = "[]" from by simp [dumpVal],
        show fuelFor (.jarr []) = 2 from by simp [fuelFor]]
      decide
    | cons e es2 =>
      have hlen : (dumpVal ind (.jarr (e :: es2))).data.length
          = (dumpItems (ind + 2) e es2).data.length + ind + 4 := by
        rw [show dumpVal ind (.jarr (e :: es2))
            = "[\n" ++ dumpItems (ind + 2) e es2 ++ "\n" ++ spaces ind ++ "]"
          from by simp [dumpVal]]
        simp [String.data_append, spaces_data_length, spaces_length]
        omega
      have hit := fuelItems_le_dump (ind + 2) (by omega) e es2
      rw [show fuelFor (.jarr (e :: es2)) = 1 + fuelItems e es2 from by simp [fuelFor], hlen]
      omega
  | jobj fs =>
    cases fs with
    | nil =>
      rw [show dumpVal ind (.jobj []) = "\x7b\x7d" from by simp [dumpVal],
        show fuelFor (.jobj []) = 2 from by simp [fuelFor]]
      decide
    | cons f fs2 =>
      obtain ⟨k, w⟩ := f
      have hlen : (dumpVal ind (.jobj ((k, w) :: fs2))).data.length
          = (dumpPairs (ind + 2) k w fs2).data.length + ind + 4 := by
        rw [show dumpVal ind (.jobj ((k, w) :: fs2))
            = "\x7b\n" ++ dumpPairs (ind + 2) k w fs2 ++ "\n" ++ spaces ind ++ "\x7d"
          from by simp [dumpVal]]
        simp [String.data_append, spaces_data_length, spaces_length]
        omega
      have hit := fuelPairs_le_dump (ind + 2) (by omega) k w fs2
      rw [show fuelFor (.jobj ((k, w) :: fs2)) = 1 + fuelPairs w fs2 from by simp [fuelFor],
        hlen]
      omega
termination_by sizeOf v

theorem fuelItems_le_dump (ind : Nat) (hind : 2 ≤ ind) (e : JsonVal) (es : List JsonVal) :
    fuelItems e es ≤ (dumpItems ind e es).data.length := by
  cases es with
  | nil =>
    have hlen : (dumpItems ind e []).data.length = ind + (dumpVal ind e).data.length := by
      rw [show dumpItems ind e [] = spaces ind ++ dumpVal ind e ++ ""
        from by rw [dumpItems]]
      simp [String.data_append, spaces_data_length, spaces_length]
    have hv := fuelFor_le_dump ind e
    rw [fuelItems, hlen]
    omega
  | cons e2 es3 =>
    have hlen : (dumpItems ind e (e2 :: es3)).data.length
        = ind + (dumpVal ind e).data.length + 2 + (dumpItems ind e2 es3).data.length := by
      rw [show dumpItems ind e (e2 :: es3)
          = spaces ind ++ dumpVal ind e ++ (",\n" ++ dumpItems ind e2 es3)
        from by rw [dumpItems]]
      simp [String.data_append, spaces_data_length, spaces_length]
      omega
    have hv := fuelFor_le_dump ind e
    have hit := fuelItems_le_dump ind hind e2 es3
    rw [fuelItems, hlen]
    omega
termination_by sizeOf e + sizeOf es + 1

theorem fuelPairs_le_dump (ind : Nat) (hind : 2 ≤ ind) (k : String) (w : JsonVal)
    (fs : List (String × JsonVal)) :
    fuelPairs w fs ≤ (dumpPairs ind k w fs).data.length := by
  cases fs with
  | nil =>
    have hlen : (dumpPairs ind k w []).data.length
        = ind + (encStr k).data.length + 2 + (dumpVal ind w).data.length := by
      rw [show dumpPairs ind k w [] = spaces ind ++ encStr k ++ ": " ++ dumpVal ind w ++ ""
        from by rw [dumpPairs]]
      simp [String.data_append, spaces_data_length, spaces_length]
      omega
    have hv := fuelFor_le_dump ind w
    rw [fuelPairs, hlen]
    omega
  | cons f2 fs2 =>
    obtain ⟨k2, w2⟩ := f2
    have hlen : (dumpPairs ind k w ((k2, w2) :: fs2)).data.length
        = ind + (encStr k).data.length + 2 + (dumpVal ind w).data.length + 2
            + (dumpPairs ind k2 w2 fs2).data.length := by
      rw [show dumpPairs ind k w ((k2, w2) :: fs2)
          = spaces ind ++ encStr k ++ ": " ++ dumpVal ind w ++ (",\n" ++ dumpPairs ind k2 w2 fs2)
        from by rw [dumpPairs]]
      simp [String.data_append, spaces_data_length, spaces_length]
      omega
    have hv := fuelFor_le_dump ind w
    have hit := fuelPairs_le_dump ind hind k2 w2 fs2
    rw [fuelPairs, hlen]
    omega
termination_by sizeOf w + sizeOf fs + 1

end

/-- `json.load` inverts `json.dump` on any value. -/
theorem json_loads_dumpVal (v : JsonVal) : json_loads (dumpVal 0 v) = some v := by
  have h := (parse_dump_mutual ((dumpVal 0 v).data.length + 1)).1 v 0 []
    (by have := fuelFor_le_dump 0 v; omega) rfl
  rw [List.append_nil] at h
  unfold json_loads
  rw [h]
  rfl

theorem decodeOpps_map_jobj (O : List Opportunity) :
    decodeOpps (.jarr (O.map .jobj)) = some O := by
  rw [decodeOpps]
  induction O with
  | nil => rfl
  | cons o os ih =>
    simp only [List.map_cons, List.mapM_cons, ih, decodeOpp]
    rfl

/-- C7: `save_opportunities` appends exactly one file to the filesystem
state, named `{filenamePrefix}_{timestamp}.json`, whose contents are the
`indent=2`, `ensure_ascii=False` JSON dump of the opportunities; reading
that file back as JSON yields the opportunity records unchanged; and a
non-ASCII character is written literally, not escaped. -/
theorem C7_save_round_trip :
    (∀ (fs : List (String × String)) (O : List Opportunity) (fn ts : String),
      save_opportunities .ok fs O fn ts
        = .ok (fs ++ [(fn ++ "_" ++ ts ++ ".json", dumps O)])) ∧
    (∀ O : List Opportunity, (json_loads (dumps O)).bind decodeOpps = some O) ∧
    escChar 'é' = "é" := by
  refine ⟨fun fs O fn ts => rfl, fun O => ?_, rfl⟩
  rw [show dumps O = dumpVal 0 (.jarr (O.map .jobj)) from rfl, json_loads_dumpVal]
  exact decodeOpps_map_jobj O
